import Mathlib

/-!
Verification of the Pythia prediction-market agent repository.

Two parts are embedded:

1. The risk-management signal pipeline (`agents/risk_management_agent/`).
   The repository ships only the implementation plan for this package
   (config defaults, module contracts and pipeline steps); the Python
   bodies of `schemas.py`, `analyzer.py`, `reconciler.py` and `agent.py`
   are not present, so those operations are modelled from the
   specification's component contracts, as flagged on each definition.
   The configuration defaults are taken verbatim from the plan.

2. The event-explorer frontend (`frontend/resources/event-explorer/`):
   `parseOutcomes` from `EventCard.tsx` and the result-list branching of
   `EventExplorer` from `widget.tsx`, translated from the TypeScript
   source.  JavaScript `split(",")`, `trim()` and array indexing with
   `?? 0` are modelled by executable Lean functions on `String`/`List`.
-/

/-- Sentiment enum of `RiskAnalysisInput` (plan: schemas.py). -/
inductive SentimentRating
  | very_bearish
  | bearish
  | neutral
  | bullish
  | very_bullish
deriving DecidableEq, Repr

/-- Trading signal enum: buy / sell / hold (plan: schemas.py). -/
inductive TradingSignal
  | buy
  | sell
  | hold
deriving DecidableEq, Repr

/-- Confidence enum: high / medium / low (plan: schemas.py). -/
inductive ConfidenceLevel
  | high
  | medium
  | low
deriving DecidableEq, Repr

/-- Main event info: title plus optional description (plan: schemas.py). -/
structure MainEventInfo where
  title : String
  description : Option String
deriving DecidableEq, Repr

/-- One prediction market: id, title, optional current price in the unit
interval, optional description (plan: schemas.py).  Prices are embedded
as rationals. -/
structure Market where
  id : String
  title : String
  current_price : Option ℚ
  description : Option String
deriving DecidableEq, Repr

/-- Input document of the pipeline (plan: schemas.py). -/
structure RiskAnalysisInput where
  research_summary : String
  key_findings : List String
  sentiment : SentimentRating
  main_event : MainEventInfo
  markets : List Market
deriving Repr

/-- Per-market output signal (plan: schemas.py). -/
structure MarketSignal where
  market_id : String
  market_title : String
  signal : TradingSignal
  confidence : ConfidenceLevel
  rationale : String
deriving DecidableEq, Repr

/-- Output document of the pipeline (plan: schemas.py). -/
structure RiskAnalysisOutput where
  event_title : String
  signals : List MarketSignal
  overall_analysis : String
  timestamp : String
  disclaimer : String
deriving DecidableEq, Repr

/-- Frozen configuration dataclass (plan: config.py).  Timeouts and the
retry delay are embedded as rationals (the source uses floats whose
default values are exactly representable). -/
structure RiskAgentConfig where
  model : String
  batch_size : Nat
  max_concurrent_batches : Nat
  per_batch_timeout : ℚ
  reconciliation_timeout : ℚ
  total_timeout : ℚ
  max_retries : Nat
  retry_delay : ℚ
deriving DecidableEq, Repr

/-- Default configuration values, verbatim from the plan (config.py):
model gpt-5.1, batch_size 5, max_concurrent_batches 10,
per_batch_timeout 45.0, reconciliation_timeout 30.0, total_timeout 90.0,
max_retries 2, retry_delay 1.0. -/
def DEFAULT_RISK_CONFIG : RiskAgentConfig :=
  { model := "gpt-5.1"
    batch_size := 5
    max_concurrent_batches := 10
    per_batch_timeout := 45
    reconciliation_timeout := 30
    total_timeout := 90
    max_retries := 2
    retry_delay := 1 }

/-- The single fatal error of the pipeline boundary (spec error taxonomy):
invalid input.  All other failure conditions are absorbed internally and
never surface, so no other constructor exists. -/
inductive RiskAgentError
  | InvalidInput (message : String)
deriving DecidableEq, Repr

/-- Modelled from the spec: the Batcher's recursion, with the list length
as structural fuel so that the function evaluates by kernel reduction.
Each step takes one batch of `batch_size` elements off the front.
`agents/risk_management_agent/agent.py` (pipeline step 1) is not in the
repository snapshot. -/
def splitGo (batch_size : Nat) : Nat → List α → List (List α)
  | _, [] => []
  | 0, _ :: _ => []
  | fuel + 1, m :: ms =>
    (m :: ms.take (batch_size - 1)) :: splitGo batch_size fuel (ms.drop (batch_size - 1))

/-- Modelled from the spec: `split(markets, batch_size)` — partition an
ordered market list into contiguous batches of size at most
`batch_size`, preserving order (spec 4.1; agent.py is not in the
repository snapshot). -/
def split (batch_size : Nat) (markets : List α) : List (List α) :=
  splitGo batch_size markets.length markets

/-- Modelled from the spec: the external judgment capability and the
run-scoped nondeterminism the pipeline reacts to.  `batchResponse i a`
is the parsed structured response of the analyzer call for batch `i` on
attempt `a` (`none` = transport failure, timeout or malformed response,
i.e. `AnalysisFailed`); `completedInTime i` says whether batch `i`
produced a result before the whole-pipeline deadline; `reconcileResponse`
is the parsed reconciliation response (`none` = `ReconciliationFailed`
or the call being skipped at the deadline); `now` is the timestamp
drawn at assembly time. -/
structure PipelineEnv where
  batchResponse : Nat → Nat → Option (List MarketSignal)
  completedInTime : Nat → Bool
  reconcileResponse : Option (List MarketSignal × String)
  now : String

/-- Modelled from the spec: strict schema validation of an analyzer
response for one batch — the parsed signals must cover exactly the
batch's markets, in order; anything else is rejected rather than
guessed (spec 4.2). -/
def validBatchSignals (batch : List Market) (sigs : List MarketSignal) : Bool :=
  decide (sigs.map (fun s => s.market_id) = batch.map (fun m => m.id))

/-- Modelled from the spec: `analyze_batch` — one analyzer call for one
batch on one attempt; malformed structure is surfaced as the same
failure (`none`) as transport errors and timeouts (spec 4.2;
analyzer.py is not in the repository snapshot). -/
def analyze_batch (env : PipelineEnv) (batchIdx attempt : Nat) (batch : List Market) :
    Option (List MarketSignal) :=
  match env.batchResponse batchIdx attempt with
  | some sigs => if validBatchSignals batch sigs then some sigs else none
  | none => none

/-- First successful value of `f` on the attempt window
`start, start+1, ..., start+fuel-1`, or `none` when every attempt in the
window fails.  This is the bounded retry loop shared by the retrying
analyzer. -/
def tryFrom (f : Nat → Option α) : Nat → Nat → Option α
  | _, 0 => none
  | start, fuel + 1 =>
    match f start with
    | some r => some r
    | none => tryFrom f (start + 1) fuel

/-- Fixed rationale text of the Fallback Signal Builder, stating that
analysis was unavailable. -/
def FALLBACK_RATIONALE : String :=
  "Automated analysis was unavailable for this market; defaulting to a conservative hold signal at low confidence."

/-- Modelled from the spec: `build_fallback_batch` — the deterministic
Fallback Signal Builder: one hold / low-confidence signal per market of
the batch (spec 4.4; analyzer.py is not in the repository snapshot). -/
def build_fallback_batch (batch : List Market) : List MarketSignal :=
  batch.map fun m =>
    { market_id := m.id
      market_title := m.title
      signal := TradingSignal.hold
      confidence := ConfidenceLevel.low
      rationale := FALLBACK_RATIONALE }

/-- Modelled from the spec: `analyze_batch_with_retry` — retry the
analyzer client on `AnalysisFailed` up to `max_retries` additional
attempts after the first, then fall back to the Fallback Signal Builder
instead of propagating failure (spec 4.3; analyzer.py is not in the
repository snapshot).  The inter-attempt `retry_delay` sleep has no
observable effect in this embedding. -/
def analyze_batch_with_retry (env : PipelineEnv) (cfg : RiskAgentConfig) (batchIdx : Nat)
    (batch : List Market) : List MarketSignal :=
  match tryFrom (fun attempt => analyze_batch env batchIdx attempt batch) 0 (cfg.max_retries + 1) with
  | some sigs => sigs
  | none => build_fallback_batch batch

/-- Number of signals of one kind in a signal list. -/
def signalCount (sig : TradingSignal) (sigs : List MarketSignal) : Nat :=
  (sigs.filter (fun s => s.signal == sig)).length

/-- Fixed preamble of the synthesized overall analysis used when
reconciliation fails. -/
def RECONCILIATION_PREAMBLE : String :=
  "Cross-batch reconciliation was unavailable; the per-batch signals are reported unchanged. Signal counts: "

/-- Batch-level signal counts rendered as text, concatenated after the
fixed preamble by the reconciliation fallback. -/
def signalCountSummary (sigs : List MarketSignal) : String :=
  toString (signalCount TradingSignal.buy sigs) ++ " buy, " ++
    toString (signalCount TradingSignal.sell sigs) ++ " sell, " ++
    toString (signalCount TradingSignal.hold sigs) ++ " hold."

/-- Modelled from the spec: the deterministic reconciliation fallback —
input signals unchanged, overall analysis synthesized from the fixed
preamble plus signal counts, with no further judgment call (spec 4.6;
reconciler.py is not in the repository snapshot). -/
def reconcile_fallback (sigs : List MarketSignal) : List MarketSignal × String :=
  (sigs, RECONCILIATION_PREAMBLE ++ signalCountSummary sigs)

/-- Modelled from the spec: well-formedness of a reconciliation response.
The capability may adjust `signal` / `confidence` / `rationale` but the
final list must still carry the same market ids in the same order; a
non-well-formed response is treated as total reconciliation failure
(spec 4.6, 4.7 and design note on partial responses). -/
def validReconciled (input output : List MarketSignal) : Bool :=
  decide (output.map (fun s => s.market_id) = input.map (fun s => s.market_id))

/-- Modelled from the spec: `reconcile_with_retry` — use the
reconciliation response when the call succeeded and its structure is
well-formed, otherwise fall back deterministically (spec 4.6;
reconciler.py is not in the repository snapshot).  `env` carries the
post-retry outcome of the reconciliation call. -/
def reconcile_with_retry (env : PipelineEnv) (sigs : List MarketSignal) :
    List MarketSignal × String :=
  match env.reconcileResponse with
  | some (outSigs, analysis) =>
    if validReconciled sigs outSigs then (outSigs, analysis) else reconcile_fallback sigs
  | none => reconcile_fallback sigs

/-- Modelled from the spec: the scheduler loop over batches, carrying the
batch index.  A batch that completed before the whole-pipeline deadline
contributes its retried analysis result; a batch cancelled by the
deadline contributes the fallback builder's output (spec 4.5, 4.7;
agent.py is not in the repository snapshot). -/
def runBatches (env : PipelineEnv) (cfg : RiskAgentConfig) : Nat → List (List Market) → List (List MarketSignal)
  | _, [] => []
  | i, b :: bs =>
    (if env.completedInTime i then analyze_batch_with_retry env cfg i b
     else build_fallback_batch b) :: runBatches env cfg (i + 1) bs

/-- Fixed disclaimer text attached to every output. -/
def DISCLAIMER : String :=
  "This output is automatically generated market analysis and is not financial advice."

/-- A current price is valid when absent or inside the closed unit
interval (spec data-model invariant). -/
def validPrice : Option ℚ → Bool
  | none => true
  | some p => decide (0 ≤ p) && decide (p ≤ 1)

/-- Modelled from the spec: input validation — the market list must be
non-empty and every present price must lie in the unit interval; this is
the only condition the pipeline rejects (spec error taxonomy,
`InvalidInput`). -/
def validInput (inp : RiskAnalysisInput) : Bool :=
  !inp.markets.isEmpty && inp.markets.all (fun m => validPrice m.current_price)

/-- Modelled from the spec: the Orchestrator `run` — validate, batch,
analyze all batches under the deadline, reconcile, then assemble the
output with the event title, the final signals, a fresh timestamp and
the fixed disclaimer (spec 4.7; agent.py is not in the repository
snapshot).  Only invalid input produces an error. -/
def run (env : PipelineEnv) (cfg : RiskAgentConfig) (inp : RiskAnalysisInput) :
    Except RiskAgentError RiskAnalysisOutput :=
  if validInput inp then
    let batches := split cfg.batch_size inp.markets
    let results := runBatches env cfg 0 batches
    let reconciled := reconcile_with_retry env results.flatten
    Except.ok
      { event_title := inp.main_event.title
        signals := reconciled.1
        overall_analysis := reconciled.2
        timestamp := env.now
        disclaimer := DISCLAIMER }
  else
    Except.error (RiskAgentError.InvalidInput
      "markets must be non-empty and every current_price must lie in the closed unit interval")

/-- True exactly on the `InvalidInput` error outcome of the pipeline. -/
def isInvalidInputError : Except RiskAgentError RiskAnalysisOutput → Bool
  | Except.error (RiskAgentError.InvalidInput _) => true
  | Except.ok _ => false

/-- Modelled from the spec: the Batch Scheduler's result slots.  Each
completed batch writes its result into the slot indexed by its batch
position; `completionOrder` lists batch indices in the order their
concurrent analyses completed (spec 4.5, 5). -/
def fillSlots (results : Nat → α) : List Nat → List (Option α) → List (Option α)
  | [], slots => slots
  | i :: rest, slots => fillSlots results rest (slots.set i (some (results i)))

/-- Modelled from the spec: `run_all` — run `n` batch analyses
concurrently, writing each result into its own slot as it completes, then
read the slots back in original batch order, substituting the fallback
builder's output for any slot left empty (spec 4.5).  The
admission-limiting semaphore bounds how many analyses are in flight at
once and is timing-only: it does not affect which slot a batch writes. -/
def run_all (results fallback : Nat → α) (n : Nat) (completionOrder : List Nat) : List α :=
  let slots := fillSlots results completionOrder (List.replicate n none)
  (List.range n).map fun i => (slots.getD i none).getD (fallback i)

/-- JavaScript `s.split(c)` on a single-character separator, recursing
over the character list: splitting the empty string yields one empty
field, and separators at the ends yield empty fields
(EventCard.tsx uses `split(",")`). -/
def splitCharAux (c : Char) : List Char → List Char → List String
  | [], acc => [String.mk acc.reverse]
  | x :: xs, acc =>
    if x = c then String.mk acc.reverse :: splitCharAux c xs []
    else splitCharAux c xs (x :: acc)

/-- JavaScript `s.split(c)` for one separator character. -/
def splitChar (c : Char) (s : String) : List String :=
  splitCharAux c s.data []

/-- JavaScript `s.trim()`: strip whitespace from both ends. -/
def trimChars (s : String) : String :=
  String.mk (((s.data.dropWhile Char.isWhitespace).reverse.dropWhile Char.isWhitespace).reverse)

/-- One parsed outcome chip of `EventCard`: outcome name and price. -/
structure OutcomeEntry where
  name : String
  price : ℚ
deriving DecidableEq, Repr

/-- `parseOutcomes` from `EventCard.tsx`.  `none` stands for a
null/undefined field; the JavaScript guard `!outcomes || !prices` is also
taken when either string is empty, because empty strings are falsy.
`parseFloat` is an opaque parameter (its numeric semantics are
irrelevant to the structural claims); `priceVals[i] ?? 0` becomes
`List.getD` with default 0. -/
def parseOutcomes (parseFloat : String → ℚ) (outcomes prices : Option String) :
    List OutcomeEntry :=
  match outcomes, prices with
  | some o, some p =>
    if o == "" || p == "" then []
    else
      let names := (splitChar ',' o).map trimChars
      let priceVals := (splitChar ',' p).map (fun s => parseFloat (trimChars s))
      names.mapIdx fun i name => { name := name, price := priceVals.getD i 0 }
  | _, _ => []

/-- `MarketResult` from `types.ts` (zod schema): nullable-optional fields
become `Option`; numeric fields are embedded as rationals. -/
structure MarketResult where
  id : String
  question : Option String
  category : Option String
  outcomes : Option String
  outcomePrices : Option String
  volume : Option String
  volumeNum : Option ℚ
  liquidity : Option String
  liquidityNum : Option ℚ
  endDate : Option String
  active : Option Bool
  closed : Option Bool
  slug : Option String
  conditionId : Option String
  relevance_score : ℚ
deriving DecidableEq, Repr

/-- Props of the `EventExplorer` widget (`types.ts`). -/
structure EventExplorerProps where
  results : List MarketResult
  expandedQueries : List String
  query : String
deriving Repr

/-- The observable branching of the `EventExplorer` widget body: either
the no-markets-found message for the query, or a main result card plus
the remaining results rendered, in order, under the More Results
section (the section header is shown only when that list is
non-empty). -/
inductive EventExplorerView
  | noResults (query : String)
  | withResults (main : MarketResult) (others : List MarketResult)
deriving Repr

/-- `EventExplorer` from `widget.tsx` after loading:
`const mainResult = results[0] ?? null` is `List.head?`,
`const otherResults = results.slice(1)` is `List.drop 1`, and the JSX
conditional on `mainResult` selects the view. -/
def renderEventExplorer (props : EventExplorerProps) : EventExplorerView :=
  match props.results.head? with
  | some mainResult => EventExplorerView.withResults mainResult (props.results.drop 1)
  | none => EventExplorerView.noResults props.query

/-- Concrete market used by witnesses. -/
def sampleMarket (i : Nat) : Market :=
  { id := "market-" ++ toString i
    title := "Sample market " ++ toString i
    current_price := none
    description := none }

/-- Twenty-two concrete markets, for the batching witness. -/
def sampleMarkets22 : List Market :=
  (List.range 22).map sampleMarket

/-- Concrete valid pipeline input used by witnesses. -/
def sampleInput : RiskAnalysisInput :=
  { research_summary := "Strike likelihood rising according to wire reports."
    key_findings := ["Officials signalled escalation on Friday."]
    sentiment := SentimentRating.bearish
    main_event := { title := "Sample geopolitical event", description := none }
    markets := [sampleMarket 0, sampleMarket 1, sampleMarket 2] }

/-- Environment in which every analyzer attempt and the reconciliation
call fail, used by witnesses. -/
def envAllFail : PipelineEnv :=
  { batchResponse := fun _ _ => none
    completedInTime := fun _ => true
    reconcileResponse := none
    now := "2026-10-11T00:00:00Z" }

/-- Concrete per-batch results function used by the scheduler witness. -/
def sampleResults : Nat → List MarketSignal :=
  fun i => build_fallback_batch [sampleMarket i]

/-- Concrete empty-results props used by the widget witness. -/
def samplePropsEmpty : EventExplorerProps :=
  { results := [], expandedQueries := [], query := "bitcoin" }

/-- Concatenating the produced batches reproduces the input list, as long
as the fuel covers the list length. -/
theorem splitGo_flatten (batch_size : Nat) :
    ∀ (fuel : Nat) (ms : List α), ms.length ≤ fuel → (splitGo batch_size fuel ms).flatten = ms := by
  intro fuel
  induction fuel with
  | zero =>
    intro ms h
    cases ms with
    | nil => rfl
    | cons m ms => simp at h
  | succ fuel ih =>
    intro ms h
    cases ms with
    | nil => rfl
    | cons m ms =>
      have hlen : (ms.drop (batch_size - 1)).length ≤ fuel := by
        simp only [List.length_drop]
        simp only [List.length_cons] at h
        omega
      simp only [splitGo, List.flatten_cons, ih _ hlen, List.cons_append,
        List.take_append_drop]

/-- The Batcher covers the input exactly once, in order. -/
theorem split_flatten (batch_size : Nat) (ms : List α) :
    (split batch_size ms).flatten = ms :=
  splitGo_flatten batch_size ms.length ms le_rfl

/-- Batch count of the fuelled batching loop: one batch per started group
of `batch_size` elements. -/
theorem splitGo_length (batch_size : Nat) (hbs : 0 < batch_size) :
    ∀ (fuel : Nat) (ms : List α), ms.length ≤ fuel →
      (splitGo batch_size fuel ms).length = (ms.length + batch_size - 1) / batch_size := by
  intro fuel
  induction fuel with
  | zero =>
    intro ms h
    cases ms with
    | nil =>
      simp only [splitGo, List.length_nil]
      rw [Nat.div_eq_of_lt (by omega)]
    | cons m ms => simp at h
  | succ fuel ih =>
    intro ms h
    cases ms with
    | nil =>
      simp only [splitGo, List.length_nil]
      rw [Nat.div_eq_of_lt (by omega)]
    | cons m ms =>
      have hlen : (ms.drop (batch_size - 1)).length ≤ fuel := by
        simp only [List.length_drop]
        simp only [List.length_cons] at h
        omega
      simp only [splitGo, List.length_cons, ih _ hlen, List.length_drop]
      have hstep : ms.length + 1 + batch_size - 1 = ms.length + batch_size := by omega
      rw [hstep, Nat.add_div_right _ hbs]
      have harg : (ms.length - (batch_size - 1) + batch_size - 1) / batch_size
          = ms.length / batch_size := by
        by_cases hc : batch_size - 1 ≤ ms.length
        · have : ms.length - (batch_size - 1) + batch_size - 1 = ms.length := by omega
          rw [this]
        · have h0 : ms.length - (batch_size - 1) = 0 := by omega
          rw [h0]
          rw [Nat.div_eq_of_lt (by omega), Nat.div_eq_of_lt (by omega)]
      omega

/-- Every batch produced by the fuelled batching loop has at most
`batch_size` elements. -/
theorem splitGo_sizes (batch_size : Nat) (hbs : 0 < batch_size) :
    ∀ (fuel : Nat) (ms : List α),
      (splitGo batch_size fuel ms).all (fun b => decide (b.length ≤ batch_size)) = true := by
  intro fuel
  induction fuel with
  | zero =>
    intro ms
    cases ms with
    | nil => rfl
    | cons m ms => rfl
  | succ fuel ih =>
    intro ms
    cases ms with
    | nil => rfl
    | cons m ms =>
      simp only [splitGo, List.all_cons, Bool.and_eq_true, decide_eq_true_eq]
      refine ⟨?_, ih _⟩
      simp only [List.length_cons, List.length_take]
      omega

/-- C3: for every market list and positive batch size, `split` returns
exactly the ceiling of count divided by batch size many batches, each of
size at most the batch size, and concatenating the batches in order
reproduces the input market list exactly. -/
theorem split_markets_batching (batch_size : Nat) (ms : List Market) (hbs : 0 < batch_size) :
    (split batch_size ms).length = (ms.length + batch_size - 1) / batch_size ∧
    (split batch_size ms).all (fun b => decide (b.length ≤ batch_size)) = true ∧
    (split batch_size ms).flatten = ms :=
  ⟨splitGo_length batch_size hbs ms.length ms le_rfl,
   splitGo_sizes batch_size hbs ms.length ms,
   split_flatten batch_size ms⟩

/-- Witness for C3: twenty-two markets with batch size five yield batches
of sizes five, five, five, five and two. -/
theorem split_markets_batching_witness :
    0 < 5 ∧
    ((split 5 sampleMarkets22).length = (sampleMarkets22.length + 5 - 1) / 5 ∧
      (split 5 sampleMarkets22).all (fun b => decide (b.length ≤ 5)) = true ∧
      (split 5 sampleMarkets22).flatten = sampleMarkets22) ∧
    (split 5 sampleMarkets22).map List.length = [5, 5, 5, 5, 2] :=
  ⟨by decide, split_markets_batching 5 sampleMarkets22 (by decide), by decide⟩

/-- The fallback builder emits the batch's market ids, in order. -/
theorem build_fallback_batch_ids (batch : List Market) :
    (build_fallback_batch batch).map (fun s => s.market_id) = batch.map (fun m => m.id) := by
  simp [build_fallback_batch, List.map_map]

/-- C5: the fallback builder is a pure deterministic function producing
exactly one signal per market of the batch, each with signal hold,
confidence low and the fixed rationale stating analysis was unavailable;
two calls on the same batch agree exactly. -/
theorem build_fallback_batch_pure_conservative (batch : List Market) :
    (build_fallback_batch batch).map
        (fun s => (s.market_id, s.market_title, s.signal, s.confidence, s.rationale)) =
      batch.map (fun m =>
        (m.id, m.title, TradingSignal.hold, ConfidenceLevel.low, FALLBACK_RATIONALE)) ∧
    (build_fallback_batch batch).length = batch.length ∧
    build_fallback_batch batch = build_fallback_batch batch := by
  refine ⟨?_, ?_, rfl⟩
  · simp [build_fallback_batch, List.map_map]
  · simp [build_fallback_batch]

/-- If every attempt in the window fails, the retry loop reports
exhaustion. -/
theorem tryFrom_eq_none (f : Nat → Option α) :
    ∀ (fuel start : Nat), (∀ a, start ≤ a → a < start + fuel → f a = none) →
      tryFrom f start fuel = none := by
  intro fuel
  induction fuel with
  | zero => intro start _; rfl
  | succ fuel ih =>
    intro start h
    have h0 : f start = none := h start le_rfl (by omega)
    simp only [tryFrom, h0]
    exact ih (start + 1) (fun a ha hb => h a (by omega) (by omega))

/-- Whatever the retry loop returns came out of some attempt, so any
property of every possible success carries over. -/
theorem tryFrom_some_prop (f : Nat → Option α) (p : α → Prop)
    (hp : ∀ a r, f a = some r → p r) :
    ∀ (fuel start : Nat) (r : α), tryFrom f start fuel = some r → p r := by
  intro fuel
  induction fuel with
  | zero => intro start r h; simp [tryFrom] at h
  | succ fuel ih =>
    intro start r h
    simp only [tryFrom] at h
    cases hf : f start with
    | some v =>
      rw [hf] at h
      cases h
      exact hp start r hf
    | none =>
      rw [hf] at h
      exact ih (start + 1) r h

/-- The retry loop returns the first success in the window. -/
theorem tryFrom_first_success (f : Nat → Option α) :
    ∀ (fuel start a : Nat) (r : α), start ≤ a → a < start + fuel →
      (∀ b, start ≤ b → b < a → f b = none) → f a = some r →
      tryFrom f start fuel = some r := by
  intro fuel
  induction fuel with
  | zero => intro start a r _ hb _ _; omega
  | succ fuel ih =>
    intro start a r ha hb hnone hsome
    by_cases heq : a = start
    · subst heq
      simp only [tryFrom, hsome]
    · have h0 : f start = none := hnone start le_rfl (by omega)
      simp only [tryFrom, h0]
      exact ih (start + 1) a r (by omega) (by omega)
        (fun b h1 h2 => hnone b (by omega) h2) hsome

/-- The retry loop only consults attempts inside its window. -/
theorem tryFrom_congr (f g : Nat → Option α) :
    ∀ (fuel start : Nat), (∀ a, start ≤ a → a < start + fuel → f a = g a) →
      tryFrom f start fuel = tryFrom g start fuel := by
  intro fuel
  induction fuel with
  | zero => intro start _; rfl
  | succ fuel ih =>
    intro start h
    have h0 : f start = g start := h start le_rfl (by omega)
    simp only [tryFrom, h0]
    cases g start with
    | some v => rfl
    | none => exact ih (start + 1) (fun a ha hb => h a (by omega) (by omega))

/-- A successful analyzer call carries exactly the batch's market ids. -/
theorem analyze_batch_some_ids (env : PipelineEnv) (batchIdx attempt : Nat)
    (batch : List Market) (sigs : List MarketSignal)
    (h : analyze_batch env batchIdx attempt batch = some sigs) :
    sigs.map (fun s => s.market_id) = batch.map (fun m => m.id) := by
  unfold analyze_batch at h
  cases hr : env.batchResponse batchIdx attempt with
  | none => rw [hr] at h; cases h
  | some r =>
    simp only [hr] at h
    split_ifs at h with hv
    cases h
    exact of_decide_eq_true hv

/-- The retried analyzer always returns one signal per market of the
batch, in order, whichever branch produced them. -/
theorem analyze_batch_with_retry_ids (env : PipelineEnv) (cfg : RiskAgentConfig)
    (batchIdx : Nat) (batch : List Market) :
    (analyze_batch_with_retry env cfg batchIdx batch).map (fun s => s.market_id) =
      batch.map (fun m => m.id) := by
  unfold analyze_batch_with_retry
  cases htry : tryFrom (fun attempt => analyze_batch env batchIdx attempt batch) 0
      (cfg.max_retries + 1) with
  | some sigs =>
    exact tryFrom_some_prop _ _
      (fun a r h => analyze_batch_some_ids env batchIdx a batch r h)
      (cfg.max_retries + 1) 0 sigs htry
  | none => exact build_fallback_batch_ids batch

/-- C4: the retrying analyzer never fails — it always returns a batch
result covering exactly the batch's markets; when every attempt up to
`max_retries` fails it returns the fallback builder's output; it stops
at the first successful attempt; and its result depends only on the
attempts numbered at most `max_retries`, so no further retries are
consulted. -/
theorem analyze_batch_with_retry_never_fails (env : PipelineEnv) (cfg : RiskAgentConfig)
    (batchIdx : Nat) (batch : List Market) :
    ((analyze_batch_with_retry env cfg batchIdx batch).map (fun s => s.market_id) =
      batch.map (fun m => m.id)) ∧
    ((∀ a, a ≤ cfg.max_retries → analyze_batch env batchIdx a batch = none) →
      analyze_batch_with_retry env cfg batchIdx batch = build_fallback_batch batch) ∧
    (∀ (a : Nat) (sigs : List MarketSignal), a ≤ cfg.max_retries →
      (∀ b, b < a → analyze_batch env batchIdx b batch = none) →
      analyze_batch env batchIdx a batch = some sigs →
      analyze_batch_with_retry env cfg batchIdx batch = sigs) ∧
    (∀ env2 : PipelineEnv,
      (∀ a, a ≤ cfg.max_retries →
        analyze_batch env batchIdx a batch = analyze_batch env2 batchIdx a batch) →
      analyze_batch_with_retry env cfg batchIdx batch =
        analyze_batch_with_retry env2 cfg batchIdx batch) := by
  refine ⟨analyze_batch_with_retry_ids env cfg batchIdx batch, ?_, ?_, ?_⟩
  · intro hall
    unfold analyze_batch_with_retry
    rw [tryFrom_eq_none _ (cfg.max_retries + 1) 0 (fun a _ hb => hall a (by omega))]
  · intro a sigs ha hnone hsome
    unfold analyze_batch_with_retry
    rw [tryFrom_first_success _ (cfg.max_retries + 1) 0 a sigs (by omega) (by omega)
      (fun b _ hb => hnone b hb) hsome]
  · intro env2 hagree
    unfold analyze_batch_with_retry
    rw [tryFrom_congr _ _ (cfg.max_retries + 1) 0 (fun a _ hb => hagree a (by omega))]

/-- Witness for C4: in an environment where every attempt fails, the
retried analyzer returns exactly the fallback batch. -/
theorem analyze_batch_with_retry_never_fails_witness :
    analyze_batch_with_retry envAllFail DEFAULT_RISK_CONFIG 0 sampleInput.markets =
      build_fallback_batch sampleInput.markets :=
  (analyze_batch_with_retry_never_fails envAllFail DEFAULT_RISK_CONFIG 0
    sampleInput.markets).2.1 (fun _ _ => rfl)

/-- The fixed reconciliation preamble followed by anything is a non-empty
string. -/
theorem preamble_append_ne_empty (s : String) : RECONCILIATION_PREAMBLE ++ s ≠ "" := by
  intro h
  have hd : RECONCILIATION_PREAMBLE.data ++ s.data = [] := by
    rw [← String.data_append, h]
  exact absurd (List.append_eq_nil.mp hd).1 (by decide)

/-- C6: when the reconciliation call fails, the reconciler returns the
input signals unchanged — nothing dropped, reordered or modified —
together with an overall analysis synthesized from the fixed preamble
and the batch-level signal counts, and that analysis is non-empty. -/
theorem reconcile_failure_passthrough (env : PipelineEnv) (sigs : List MarketSignal)
    (hfail : env.reconcileResponse = none) :
    (reconcile_with_retry env sigs).1 = sigs ∧
    (reconcile_with_retry env sigs).2 = RECONCILIATION_PREAMBLE ++ signalCountSummary sigs ∧
    (reconcile_with_retry env sigs).2 ≠ "" := by
  unfold reconcile_with_retry
  rw [hfail]
  exact ⟨rfl, rfl, preamble_append_ne_empty _⟩

/-- Witness for C6: the failing environment passes an arbitrary concrete
signal list through unchanged with a non-empty synthesized analysis. -/
theorem reconcile_failure_passthrough_witness :
    (reconcile_with_retry envAllFail (build_fallback_batch [sampleMarket 0])).1 =
      build_fallback_batch [sampleMarket 0] ∧
    (reconcile_with_retry envAllFail (build_fallback_batch [sampleMarket 0])).2 =
      RECONCILIATION_PREAMBLE ++ signalCountSummary (build_fallback_batch [sampleMarket 0]) ∧
    (reconcile_with_retry envAllFail (build_fallback_batch [sampleMarket 0])).2 ≠ "" :=
  reconcile_failure_passthrough envAllFail (build_fallback_batch [sampleMarket 0]) rfl

/-- Whatever the reconciliation step does, the final signal list carries
exactly the market ids of its input, in order. -/
theorem reconcile_with_retry_ids (env : PipelineEnv) (sigs : List MarketSignal) :
    (reconcile_with_retry env sigs).1.map (fun s => s.market_id) =
      sigs.map (fun s => s.market_id) := by
  unfold reconcile_with_retry
  split
  · split_ifs with hv
    · exact of_decide_eq_true hv
    · rfl
  · rfl

/-- The scheduler loop returns, per input batch in order, a result whose
market ids are exactly that batch's ids; flattening therefore preserves
the flattened batch ids. -/
theorem runBatches_flatten_ids (env : PipelineEnv) (cfg : RiskAgentConfig) :
    ∀ (i : Nat) (bs : List (List Market)),
      ((runBatches env cfg i bs).flatten).map (fun s => s.market_id) =
        (bs.flatten).map (fun m => m.id) := by
  intro i bs
  induction bs generalizing i with
  | nil => rfl
  | cons b rest ih =>
    simp only [runBatches, List.flatten_cons, List.map_append, ih (i + 1)]
    congr 1
    by_cases hc : env.completedInTime i = true
    · rw [if_pos hc]
      exact analyze_batch_with_retry_ids env cfg i b
    · rw [if_neg hc]
      exact build_fallback_batch_ids b

/-- On valid input the pipeline returns an output whose signal ids are
exactly the input market ids, in input order. -/
theorem run_valid_ids (env : PipelineEnv) (cfg : RiskAgentConfig) (inp : RiskAnalysisInput)
    (hv : validInput inp = true) :
    (run env cfg inp).map (fun out => out.signals.map (fun s => s.market_id)) =
      Except.ok (inp.markets.map (fun m => m.id)) := by
  unfold run
  rw [if_pos hv]
  dsimp only [Except.map]
  rw [reconcile_with_retry_ids, runBatches_flatten_ids, split_flatten]

/-- On valid input the pipeline returns exactly one signal per input
market. -/
theorem run_valid_length (env : PipelineEnv) (cfg : RiskAgentConfig) (inp : RiskAnalysisInput)
    (hv : validInput inp = true) :
    (run env cfg inp).map (fun out => out.signals.length) = Except.ok inp.markets.length := by
  unfold run
  rw [if_pos hv]
  dsimp only [Except.map]
  have h1 := reconcile_with_retry_ids env
    ((runBatches env cfg 0 (split cfg.batch_size inp.markets)).flatten)
  have h2 := runBatches_flatten_ids env cfg 0 (split cfg.batch_size inp.markets)
  have h3 := congrArg (List.map (fun m => m.id)) (split_flatten cfg.batch_size inp.markets)
  have hlen := congrArg List.length ((h1.trans h2).trans h3)
  simp only [List.length_map] at hlen
  rw [hlen]

/-- C1: for every valid input, the pipeline output contains exactly one
signal per input market, with the market ids equal to the input market
ids in input order — regardless of which batch analyses or the
reconciliation call fail in the environment. -/
theorem pipeline_one_signal_per_market (env : PipelineEnv) (cfg : RiskAgentConfig)
    (inp : RiskAnalysisInput) (hv : validInput inp = true) :
    (run env cfg inp).map (fun out => out.signals.map (fun s => s.market_id)) =
      Except.ok (inp.markets.map (fun m => m.id)) ∧
    (run env cfg inp).map (fun out => out.signals.length) = Except.ok inp.markets.length :=
  ⟨run_valid_ids env cfg inp hv, run_valid_length env cfg inp hv⟩

/-- Witness for C1: a concrete valid three-market input in the
environment where every analyzer attempt and the reconciliation call
fail. -/
theorem pipeline_one_signal_per_market_witness :
    validInput sampleInput = true ∧
    ((run envAllFail DEFAULT_RISK_CONFIG sampleInput).map
        (fun out => out.signals.map (fun s => s.market_id)) =
      Except.ok (sampleInput.markets.map (fun m => m.id)) ∧
    (run envAllFail DEFAULT_RISK_CONFIG sampleInput).map (fun out => out.signals.length) =
      Except.ok sampleInput.markets.length) :=
  ⟨by decide,
   pipeline_one_signal_per_market envAllFail DEFAULT_RISK_CONFIG sampleInput (by decide)⟩

/-- C2: the only failure the pipeline surfaces is `InvalidInput`,
rejected up front — `run` succeeds exactly on valid input, the error
outcome is always the `InvalidInput` error, and every successful outcome
is complete, carrying one signal per input market, whatever batch or
reconciliation failures the environment holds. -/
theorem pipeline_error_propagation (env : PipelineEnv) (cfg : RiskAgentConfig)
    (inp : RiskAnalysisInput) :
    (run env cfg inp).isOk = validInput inp ∧
    isInvalidInputError (run env cfg inp) = !validInput inp ∧
    (run env cfg inp).map (fun out => out.signals.length) =
      (run env cfg inp).map (fun _ => inp.markets.length) := by
  by_cases hv : validInput inp = true
  · rw [hv]
    refine ⟨?_, ?_, ?_⟩
    · unfold run
      rw [if_pos hv]
      rfl
    · unfold run
      rw [if_pos hv]
      rfl
    · rw [run_valid_length env cfg inp hv]
      unfold run
      rw [if_pos hv]
      rfl
  · simp only [Bool.not_eq_true] at hv
    rw [hv]
    have hneg : ¬(validInput inp = true) := by
      rw [hv]
      exact Bool.false_ne_true
    refine ⟨?_, ?_, ?_⟩
    · unfold run
      rw [if_neg hneg]
      rfl
    · unfold run
      rw [if_neg hneg]
      rfl
    · unfold run
      rw [if_neg hneg]
      rfl

/-- Writing results into slots never changes the number of slots. -/
theorem fillSlots_length (results : Nat → α) :
    ∀ (order : List Nat) (slots : List (Option α)),
      (fillSlots results order slots).length = slots.length := by
  intro order
  induction order with
  | nil => intro slots; rfl
  | cons j rest ih =>
    intro slots
    simp only [fillSlots, ih, List.length_set]

/-- After all completions are written, a slot holds its own batch's
result exactly when its index completed, and is untouched otherwise —
independent of the completion order. -/
theorem fillSlots_getElem? (results : Nat → α) :
    ∀ (order : List Nat) (slots : List (Option α)) (i : Nat), i < slots.length →
      (fillSlots results order slots)[i]? =
        if i ∈ order then some (some (results i)) else slots[i]? := by
  intro order
  induction order with
  | nil =>
    intro slots i _
    simp [fillSlots]
  | cons j rest ih =>
    intro slots i hi
    simp only [fillSlots]
    rw [ih (slots.set j (some (results j))) i (by simpa using hi)]
    by_cases hir : i ∈ rest
    · simp [hir]
    · by_cases hij : i = j
      · subst hij
        simp [hir, List.getElem?_set, hi]
      · simp only [hir, if_false, List.mem_cons]
        rw [List.getElem?_set]
        simp [Ne.symm hij, hij, hir]

/-- C7: for every completion order of the concurrent batch analyses —
any permutation of the batch indices — the scheduler's returned list is
the results in original batch order. -/
theorem run_all_order_independent (results fallback : Nat → List MarketSignal) (n : Nat)
    (completionOrder : List Nat) (hperm : completionOrder.Perm (List.range n)) :
    run_all results fallback n completionOrder = (List.range n).map results := by
  unfold run_all
  refine List.map_congr_left ?_
  intro i hi
  have hin : i < n := List.mem_range.mp hi
  have hlen : i < (List.replicate n (none : Option (List MarketSignal))).length := by
    simpa using hin
  have hmem : i ∈ completionOrder := hperm.mem_iff.mpr hi
  have hslot := fillSlots_getElem? results completionOrder
    (List.replicate n (none : Option (List MarketSignal))) i hlen
  rw [if_pos hmem] at hslot
  rw [List.getD_eq_getElem?_getD, hslot]
  rfl

/-- Witness for C7: three batches completing in the order two, zero, one
still yield results in batch order zero, one, two. -/
theorem run_all_order_independent_witness :
    ([2, 0, 1].Perm (List.range 3)) ∧
    run_all sampleResults (fun i => build_fallback_batch [sampleMarket i]) 3 [2, 0, 1] =
      (List.range 3).map sampleResults :=
  ⟨by decide,
   run_all_order_independent sampleResults (fun i => build_fallback_batch [sampleMarket i])
     3 [2, 0, 1] (by decide)⟩

/-- C8 counterexample: for the default configuration the per-batch
retry budget summed across all attempts — three attempts of 45.0 seconds
plus two retry delays of 1.0 second — strictly exceeds the whole-pipeline
deadline of 90.0 seconds, so it does not fit under it. -/
theorem retry_budget_exceeds_deadline :
    DEFAULT_RISK_CONFIG.total_timeout <
      (DEFAULT_RISK_CONFIG.max_retries + 1 : ℚ) * DEFAULT_RISK_CONFIG.per_batch_timeout +
        (DEFAULT_RISK_CONFIG.max_retries : ℚ) * DEFAULT_RISK_CONFIG.retry_delay := by
  norm_num [DEFAULT_RISK_CONFIG]

/-- C8 amended: for the default configuration the summed per-call budget
across attempts is 137.0 seconds, which exceeds the 90.0 second
whole-pipeline deadline; only a single attempt's 45.0 second timeout
fits under the deadline. -/
theorem retry_budget_default_values :
    (DEFAULT_RISK_CONFIG.max_retries + 1 : ℚ) * DEFAULT_RISK_CONFIG.per_batch_timeout +
        (DEFAULT_RISK_CONFIG.max_retries : ℚ) * DEFAULT_RISK_CONFIG.retry_delay = 137 ∧
    DEFAULT_RISK_CONFIG.total_timeout = 90 ∧
    DEFAULT_RISK_CONFIG.per_batch_timeout ≤ DEFAULT_RISK_CONFIG.total_timeout := by
  refine ⟨?_, ?_, ?_⟩ <;> norm_num [DEFAULT_RISK_CONFIG]

/-- Mapping the name projection over an index-mapped outcome list whose
builder keeps the name returns the original names. -/
theorem mapIdx_name_map (names : List String) :
    ∀ (f : Nat → String → OutcomeEntry), (∀ i n, (f i n).name = n) →
      (names.mapIdx f).map (fun e => e.name) = names := by
  induction names with
  | nil => intro f _; rfl
  | cons a l ih =>
    intro f hf
    rw [List.mapIdx_cons, List.map_cons, hf, ih (fun i => f (i + 1)) (fun i n => hf (i + 1) n)]

/-- C9 counterexample: with both arguments present (neither null nor
undefined) but the price string empty, `parseOutcomes` returns no
entries even though the outcome string holds two comma-separated names —
the falsy-string guard also rejects empty strings. -/
theorem parseOutcomes_empty_prices_counterexample :
    parseOutcomes (fun _ => 0) (some "a,b") (some "") = [] ∧
    (splitChar ',' "a,b").map trimChars = ["a", "b"] :=
  ⟨by decide, by decide⟩

/-- C9 amended: `parseOutcomes` is total; if either argument is null,
undefined, or the empty string it returns the empty list; otherwise it
returns exactly one entry per comma-separated outcome name, in order,
and every entry whose index is beyond the parsed price list has price
zero rather than an out-of-bounds access. -/
theorem parseOutcomes_amended (pf : String → ℚ) (o p : String) :
    parseOutcomes pf none (some p) = [] ∧
    parseOutcomes pf (some o) none = [] ∧
    parseOutcomes pf none none = [] ∧
    parseOutcomes pf (some "") (some p) = [] ∧
    parseOutcomes pf (some o) (some "") = [] ∧
    (o ≠ "" → p ≠ "" →
      (parseOutcomes pf (some o) (some p)).map (fun e => e.name) =
        (splitChar ',' o).map trimChars ∧
      (parseOutcomes pf (some o) (some p)).length = (splitChar ',' o).length ∧
      ∀ (i : Nat) (h : i < (parseOutcomes pf (some o) (some p)).length),
        (splitChar ',' p).length ≤ i →
        ((parseOutcomes pf (some o) (some p)).get ⟨i, h⟩).price = 0) := by
  refine ⟨rfl, rfl, rfl, by simp [parseOutcomes], by simp [parseOutcomes], ?_⟩
  intro ho hp
  have hcond : (o == "" || p == "") = false := by
    simp [ho, hp]
  have hdef : parseOutcomes pf (some o) (some p) =
      ((splitChar ',' o).map trimChars).mapIdx
        (fun i name =>
          { name := name
            price := ((splitChar ',' p).map (fun s => pf (trimChars s))).getD i 0 }) := by
    simp only [parseOutcomes]
    rw [hcond]
    rfl
  rw [hdef]
  refine ⟨mapIdx_name_map _ _ (fun i n => rfl), ?_, ?_⟩
  · rw [List.length_mapIdx, List.length_map]
  · intro i h hge
    have hn : i < ((splitChar ',' o).map trimChars).length := by
      simpa [List.length_mapIdx] using h
    rw [List.get_mapIdx _ _ i hn]
    have hlen : ((splitChar ',' p).map (fun s => pf (trimChars s))).length ≤ i := by
      simpa using hge
    simp [List.getD_eq_getElem?_getD, List.getElem?_eq_none hlen]

/-- Witness for C9 amended: three comma-separated outcome names against
two prices yield three entries whose names are the trimmed split
names. -/
theorem parseOutcomes_amended_witness :
    ("Yes,No,Maybe" : String) ≠ "" ∧ ("0.4,0.5" : String) ≠ "" ∧
    (parseOutcomes (fun _ => (2 : ℚ) / 5) (some "Yes,No,Maybe") (some "0.4,0.5")).map
        (fun e => e.name) = (splitChar ',' "Yes,No,Maybe").map trimChars :=
  ⟨by decide, by decide,
   ((parseOutcomes_amended (fun _ => (2 : ℚ) / 5) "Yes,No,Maybe" "0.4,0.5").2.2.2.2.2
     (by decide) (by decide)).1⟩

/-- C10: the event-explorer widget never fails on its results list — an
empty list renders the no-markets-found message for the query, and a
non-empty list renders its first element as the main result with exactly
the remaining elements, in order, as the other results. -/
theorem eventExplorer_render_total (props : EventExplorerProps) :
    (props.results = [] → renderEventExplorer props = EventExplorerView.noResults props.query) ∧
    (∀ (m : MarketResult) (rest : List MarketResult),
      props.results = m :: rest →
        renderEventExplorer props = EventExplorerView.withResults m rest) := by
  constructor
  · intro h0
    unfold renderEventExplorer
    rw [h0]
    rfl
  · intro m rest hmr
    unfold renderEventExplorer
    rw [hmr]
    rfl

/-- Witness for C10: concrete empty-results props render the
no-markets-found view for the query. -/
theorem eventExplorer_render_total_witness :
    renderEventExplorer samplePropsEmpty = EventExplorerView.noResults "bitcoin" :=
  (eventExplorer_render_total samplePropsEmpty).1 rfl
